import Mathlib

/-!
Shallow embedding of the TeenyJVM bytecode interpreter (`src/jvm.c`, function
`execute`) together with proofs about the behaviour of its instruction set.

The interpreter state is transcribed from the C source: a program counter
(`size_t pc`, modelled as `Nat` with `size_t` wrap-around applied where the C
adds a signed offset), an operand-stack array of `max_stack` 32-bit slots with
a live index `idx`, a caller-supplied locals array, the shared heap of
length-prefixed integer arrays, and the lines printed by `invokevirtual`.

Machine integers are modelled as `Int` with explicit two's-complement
wrapping (`wrap32`); every array access the C performs through a raw pointer
is modelled as a checked access that produces the error outcome `Err.oob`
when the C program would read or write out of bounds, and each C `assert`
produces `Err.assertFail`.
-/

namespace TeenyJVM

/-- Two's-complement reduction of an integer into the Signed32 range
`[-2^31, 2^31)`; this is the value an `int32_t` holds after the C code
stores the mathematical result. -/
def wrap32 (i : Int) : Int := (i + 2 ^ 31) % 2 ^ 32 - 2 ^ 31

/-- The unsigned 32-bit image of a Signed32 value (the C cast `(u4) x`). -/
def u32 (i : Int) : Nat := (i % 2 ^ 32).toNat

/-- Sign extension of one code byte, the C cast `(int32_t)(int8_t) b`. -/
def toS8 (n : Nat) : Int := ((n : Int) + 2 ^ 7) % 2 ^ 8 - 2 ^ 7

/-- Sign extension from 16 bits, the C cast `(int16_t)(b1 << 8 | b2)`. -/
def toS16 (n : Nat) : Int := ((n : Int) + 2 ^ 15) % 2 ^ 16 - 2 ^ 15

/-- Wrap-around of `size_t` arithmetic: the value of `pc + off` computed in
the C type `size_t` (64 bits, reduction modulo `2^64` into `[0, 2^64)`). -/
def wrap64 (i : Int) : Nat := (i % 2 ^ 64).toNat

/-- A parsed method of the class image (`method_t` plus the externally
derived parameter count `get_number_of_parameters`): code bytes
(`code.code`, with `code.length` playing the role of `code_length`),
`max_stack`, `max_locals` and the parameter count. -/
structure Method where
  code : List Nat
  maxStack : Nat
  maxLocals : Nat
  nParams : Nat
deriving DecidableEq

/-- One constant-pool entry, as far as the interpreter consumes the pool:
an integer constant (`CONSTANT_Integer_info`, field `bytes`), a method
reference resolving to a method of the same class (index into the method
list), or any other tag, which the core never reads successfully. -/
inductive CpEntry where
  | intc (v : Int)
  | methodref (mi : Nat)
  | other
deriving DecidableEq

/-- The parsed class image (`class_file_t`): the constant pool, indexed
from 1 in bytecode, stored 0-based here exactly as in the C array, and the
method list. -/
structure ClassImage where
  pool : List CpEntry
  methods : List Method
deriving DecidableEq

/-- Modelled from the spec: `find_method_from_index` of the external
class-file reader (`read_class.c`, not under `src/`) resolves a
constant-pool methodref at a 1-based index to a method within the same
class; any other index yields no method. -/
def findMethodFromIndex (cls : ClassImage) (i : Int) : Option Method :=
  if 1 ≤ i then
    match cls.pool[i.toNat - 1]? with
    | some (CpEntry.methodref mi) => cls.methods[mi]?
    | _ => none
  else none

/-- Modelled from the spec: the heap (`heap.c`, not under `src/`) is a
growable table of owned integer arrays; `heap_get` looks up the array at a
previously issued reference index. A negative or never-issued reference is
undefined behaviour in the C program, modelled as a failed lookup. -/
def heapGet (heap : List (List Int)) (r : Int) : Option (List Int) :=
  if 0 ≤ r then heap[r.toNat]? else none

/-- The comparison kinds shared by the six `if<cond>` and the six
`if_icmp<cond>` opcodes of the source's switch. -/
inductive Cmp where
  | eq | ne | lt | ge | gt | le
deriving DecidableEq

/-- The condition of `ifeq` … `ifle`: the source compares the popped value
against 0 (`stack[idx - 1] == 0`, `!= 0`, `< 0`, `>= 0`, `> 0`, `<= 0`). -/
def cmpZero : Cmp → Int → Bool
  | Cmp.eq, v => v = 0
  | Cmp.ne, v => v ≠ 0
  | Cmp.lt, v => v < 0
  | Cmp.ge, v => 0 ≤ v
  | Cmp.gt, v => 0 < v
  | Cmp.le, v => v ≤ 0

/-- The condition of `if_icmpeq` … `if_icmple` with `a = stack[idx - 2]`
and `b = stack[idx - 1]`, written exactly as the source compares them
(`b == a`, `b != a`, `a < b`, `a >= b`, `a > b`, `a <= b`). -/
def cmpTwo : Cmp → Int → Int → Bool
  | Cmp.eq, a, b => b = a
  | Cmp.ne, a, b => b ≠ a
  | Cmp.lt, a, b => a < b
  | Cmp.ge, a, b => b ≤ a
  | Cmp.gt, a, b => b < a
  | Cmp.le, a, b => a ≤ b

/-- The cases of the source's `switch (instruction)`, one constructor per
case label group (the contiguous `iconst`/`iload_n`/`istore_n`/`aload_n`/
`astore_n` groups and the two comparison families keep their parameter,
exactly as the C computes it from the opcode byte). `unknown` is the
`default` case. -/
inductive Instr where
  | unknown
  | bipush
  | iadd
  | ret
  | getstatic
  | invokevirtual
  | iconst (v : Int)
  | sipush
  | isub
  | imul
  | idiv
  | irem
  | ineg
  | ishl
  | ishr
  | iushr
  | iand
  | ior
  | ixor
  | iload
  | istore
  | iinc
  | iloadN (n : Nat)
  | istoreN (n : Nat)
  | ldc
  | ifCond (c : Cmp)
  | ifICmp (c : Cmp)
  | goto
  | ireturn
  | invokestatic
  | nop
  | dup
  | newarray
  | arraylength
  | areturn
  | iastore
  | iaload
  | aload
  | astore
  | aloadN (n : Nat)
  | astoreN (n : Nat)
deriving DecidableEq

/-- The dispatch of the source's `switch` on the opcode byte, using the
standard JVM opcode values that the `i_*` constants of the header
(`class_types.h`, not under `src/`) name.  `iconst` carries
`(int8_t)(instruction - i_iconst_0)` and the `_n` groups carry
`instruction - i_<op>_0`, as computed in the corresponding case bodies. -/
def decode (b : Nat) : Instr :=
  if b = 0x00 then Instr.nop
  else if 0x02 ≤ b ∧ b ≤ 0x08 then Instr.iconst ((b : Int) - 0x03)
  else if b = 0x10 then Instr.bipush
  else if b = 0x11 then Instr.sipush
  else if b = 0x12 then Instr.ldc
  else if b = 0x15 then Instr.iload
  else if b = 0x19 then Instr.aload
  else if 0x1a ≤ b ∧ b ≤ 0x1d then Instr.iloadN (b - 0x1a)
  else if 0x2a ≤ b ∧ b ≤ 0x2d then Instr.aloadN (b - 0x2a)
  else if b = 0x2e then Instr.iaload
  else if b = 0x36 then Instr.istore
  else if b = 0x3a then Instr.astore
  else if 0x3b ≤ b ∧ b ≤ 0x3e then Instr.istoreN (b - 0x3b)
  else if 0x4b ≤ b ∧ b ≤ 0x4e then Instr.astoreN (b - 0x4b)
  else if b = 0x4f then Instr.iastore
  else if b = 0x59 then Instr.dup
  else if b = 0x60 then Instr.iadd
  else if b = 0x64 then Instr.isub
  else if b = 0x68 then Instr.imul
  else if b = 0x6c then Instr.idiv
  else if b = 0x70 then Instr.irem
  else if b = 0x74 then Instr.ineg
  else if b = 0x78 then Instr.ishl
  else if b = 0x7a then Instr.ishr
  else if b = 0x7c then Instr.iushr
  else if b = 0x7e then Instr.iand
  else if b = 0x80 then Instr.ior
  else if b = 0x82 then Instr.ixor
  else if b = 0x84 then Instr.iinc
  else if b = 0x99 then Instr.ifCond Cmp.eq
  else if b = 0x9a then Instr.ifCond Cmp.ne
  else if b = 0x9b then Instr.ifCond Cmp.lt
  else if b = 0x9c then Instr.ifCond Cmp.ge
  else if b = 0x9d then Instr.ifCond Cmp.gt
  else if b = 0x9e then Instr.ifCond Cmp.le
  else if b = 0x9f then Instr.ifICmp Cmp.eq
  else if b = 0xa0 then Instr.ifICmp Cmp.ne
  else if b = 0xa1 then Instr.ifICmp Cmp.lt
  else if b = 0xa2 then Instr.ifICmp Cmp.ge
  else if b = 0xa3 then Instr.ifICmp Cmp.gt
  else if b = 0xa4 then Instr.ifICmp Cmp.le
  else if b = 0xa7 then Instr.goto
  else if b = 0xac then Instr.ireturn
  else if b = 0xb0 then Instr.areturn
  else if b = 0xb1 then Instr.ret
  else if b = 0xb2 then Instr.getstatic
  else if b = 0xb6 then Instr.invokevirtual
  else if b = 0xb8 then Instr.invokestatic
  else if b = 0xbc then Instr.newarray
  else if b = 0xbe then Instr.arraylength
  else Instr.unknown

/-- The mutable state of one `execute` activation between two instructions:
`pc`, the operand-stack array (`calloc(max_stack, 4)`) with its live index
`idx`, the caller-supplied locals array, the shared heap, and the lines the
run has printed so far. -/
structure EState where
  pc : Nat
  stack : List Int
  idx : Nat
  locals : List Int
  heap : List (List Int)
  out : List Int
deriving DecidableEq

/-- What a finished `execute` call hands back: the `optional_value_t`
result plus the final contents of the caller-visible mutable state (locals
array, heap, printed output). -/
structure Done where
  retVal : Option Int
  locals : List Int
  heap : List (List Int)
  out : List Int
deriving DecidableEq

/-- Abnormal outcomes of a run: `fuel` (the step budget of the embedding
ran out), `oob` (the C program would access memory out of bounds —
undefined behaviour), `assertFail` (a C `assert` fired and the process
aborts). -/
inductive Err where
  | fuel
  | oob
  | assertFail
deriving DecidableEq

/-- Result of one iteration of the interpreter loop: continue in the same
frame, return from `execute`, or die. -/
inductive StepRes where
  | cont (st : EState)
  | done (d : Done)
  | err (e : Err)
deriving DecidableEq

/-- Results of whole runs can be compared decidably, so concrete runs can
be checked by evaluation. -/
instance : DecidableEq (Except Err Done) := fun x y =>
  match x, y with
  | Except.ok a, Except.ok b =>
      if h : a = b then isTrue (by rw [h]) else isFalse (by simp [h])
  | Except.error a, Except.error b =>
      if h : a = b then isTrue (by rw [h]) else isFalse (by simp [h])
  | Except.ok _, Except.error _ => isFalse (by simp)
  | Except.error _, Except.ok _ => isFalse (by simp)

/-- Checked read of `stack[idx - k]` (the C index is computed in `size_t`,
so `k > idx` wraps around and is out of bounds, as is any index beyond the
allocated `max_stack` slots). -/
def sGet (st : EState) (k : Nat) : Option Int :=
  if k ≤ st.idx then st.stack[st.idx - k]? else none

/-- The source's push pattern `stack[idx] = v; idx += 1; pc += dpc`,
checked against the allocated stack size. -/
def push (st : EState) (v : Int) (dpc : Nat) : Option EState :=
  if st.idx < st.stack.length then
    some { st with stack := st.stack.set st.idx v, idx := st.idx + 1,
                   pc := st.pc + dpc }
  else none

/-- The source's binary-operator pattern
`stack[idx - 2] = f (stack[idx - 2]) (stack[idx - 1]); idx -= 1; pc += 1`. -/
def binop (st : EState) (f : Int → Int → Int) : Option EState :=
  match sGet st 2, sGet st 1 with
  | some a, some b =>
      some { st with stack := st.stack.set (st.idx - 2) (f a b),
                     idx := st.idx - 1, pc := st.pc + 1 }
  | _, _ => none

/-- A checked helper step failing means the C program went out of bounds. -/
def orOob : Option EState → StepRes
  | some st => StepRes.cont st
  | none => StepRes.err Err.oob

/-- The backing array `newarray` builds: `calloc(n + 1)` slots, the length
`n` stored at offset 0 and every element slot zero. -/
def mkArr (n : Int) : List Int := n :: List.replicate n.toNat 0

/-- The argument-marshalling loop of `invokestatic`:
`for (i = p - 1; i > -1; i--) { local_queue[i] = stack[idx - 1]; idx -= 1; }`.
The first argument counts the remaining iterations, so the call with `i + 1`
performs the iteration whose loop variable is `i`.  Every read of
`stack[idx - 1]` and every write of `local_queue[i]` is bounds-checked. -/
def marshalLoop : Nat → List Int → Nat → List Int → Option (List Int)
  | 0, _, _, q => some q
  | i + 1, stack, idx, q =>
      if 1 ≤ idx ∧ i < q.length then
        match stack[idx - 1]? with
        | some v => marshalLoop i stack (idx - 1) (q.set i v)
        | none => none
      else none

/-- The frame state a fresh `execute` activation starts from: `pc = 0`, a
zero-filled operand stack of `max_stack` slots with live depth 0, the given
locals, and the heap and output threaded in from the caller. -/
def mkInit (m : Method) (locals : List Int) (heap : List (List Int))
    (out : List Int) : EState :=
  ⟨0, List.replicate m.maxStack 0, 0, locals, heap, out⟩

/-- The big-endian 16-bit immediate of a 3-byte instruction, the C
expression `bytecode[pc + 1] << 8 | bytecode[pc + 2]` computed on the two
operand bytes. -/
def imm16 (b1 b2 : Nat) : Nat := (b1 <<< 8) ||| b2

/-- The pc a taken branch assigns, the C statement
`pc += (int16_t)(bytecode[pc + 1] << 8 | bytecode[pc + 2])`: the 16-bit
big-endian immediate is sign-extended and added to the address of the
branching opcode itself, in `size_t` arithmetic. -/
def branchTarget (pc b1 b2 : Nat) : Nat := wrap64 ((pc : Int) + toS16 (imm16 b1 b2))

theorem branchTarget_def (pc b1 b2 : Nat) :
    branchTarget pc b1 b2 = wrap64 ((pc : Int) + toS16 (imm16 b1 b2)) := rfl

seal branchTarget

/-- The body of the source's `switch (instruction)`: the effect of one
decoded instruction on the frame state, parametrised by the runner `exec`
that performs the recursive `execute(method_call, local_queue, class, heap)`
call of the `invokestatic` case.  Each case is transcribed from the
corresponding case of the C switch, with every raw array access checked. -/
def runInstr (exec : Method → EState → Except Err Done) (cls : ClassImage)
    (m : Method) (st : EState) : Instr → StepRes
  | Instr.unknown => StepRes.cont { st with pc := st.pc + 1 }
  | Instr.bipush =>
    match m.code[st.pc + 1]? with
    | some c => orOob (push st (toS8 c) 2)
    | none => StepRes.err Err.oob
  | Instr.iadd => orOob (binop st (fun a b => wrap32 (b + a)))
  | Instr.ret => StepRes.done ⟨none, st.locals, st.heap, st.out⟩
  | Instr.getstatic => StepRes.cont { st with pc := st.pc + 3 }
  | Instr.invokevirtual =>
    match sGet st 1 with
    | some v => StepRes.cont { st with idx := st.idx - 1,
                                       out := st.out ++ [v], pc := st.pc + 3 }
    | none => StepRes.err Err.oob
  | Instr.iconst v => orOob (push st v 1)
  | Instr.sipush =>
    match m.code[st.pc + 1]?, m.code[st.pc + 2]? with
    | some b1, some b2 => orOob (push st (toS16 (imm16 b1 b2)) 3)
    | _, _ => StepRes.err Err.oob
  | Instr.isub => orOob (binop st (fun a b => wrap32 (a - b)))
  | Instr.imul => orOob (binop st (fun a b => wrap32 (b * a)))
  | Instr.idiv =>
    match sGet st 1 with
    | some bv =>
      if bv = 0 then StepRes.err Err.assertFail
      else orOob (binop st (fun a b => wrap32 (a.tdiv b)))
    | none => StepRes.err Err.oob
  | Instr.irem =>
    match sGet st 1 with
    | some bv =>
      if bv = 0 then StepRes.err Err.assertFail
      else orOob (binop st (fun a b => wrap32 (a.tmod b)))
    | none => StepRes.err Err.oob
  | Instr.ineg =>
    match sGet st 1 with
    | some v => StepRes.cont { st with
        stack := st.stack.set (st.idx - 1) (wrap32 (-1 * v)),
        pc := st.pc + 1 }
    | none => StepRes.err Err.oob
  | Instr.ishl =>
    match sGet st 1 with
    | some bv =>
      if bv < 0 then StepRes.err Err.assertFail
      else orOob (binop st (fun a b => wrap32 (a * 2 ^ b.toNat)))
    | none => StepRes.err Err.oob
  | Instr.ishr =>
    match sGet st 1 with
    | some bv =>
      if bv < 0 then StepRes.err Err.assertFail
      else orOob (binop st (fun a b => Int.fdiv a (2 ^ b.toNat)))
    | none => StepRes.err Err.oob
  | Instr.iushr =>
    match sGet st 1 with
    | some bv =>
      if bv < 0 then StepRes.err Err.assertFail
      else orOob (binop st (fun a b => wrap32 ((u32 a >>> b.toNat : Nat) : Int)))
    | none => StepRes.err Err.oob
  | Instr.iand => orOob (binop st (fun a b => wrap32 ((u32 b &&& u32 a : Nat) : Int)))
  | Instr.ior => orOob (binop st (fun a b => wrap32 ((u32 b ||| u32 a : Nat) : Int)))
  | Instr.ixor => orOob (binop st (fun a b => wrap32 ((u32 b ^^^ u32 a : Nat) : Int)))
  | Instr.iload =>
    match m.code[st.pc + 1]? with
    | some n =>
      match st.locals[n]? with
      | some v => orOob (push st v 2)
      | none => StepRes.err Err.oob
    | none => StepRes.err Err.oob
  | Instr.istore =>
    match m.code[st.pc + 1]?, sGet st 1 with
    | some n, some v =>
      if n < st.locals.length then
        StepRes.cont { st with locals := st.locals.set n v,
                               idx := st.idx - 1, pc := st.pc + 2 }
      else StepRes.err Err.oob
    | _, _ => StepRes.err Err.oob
  | Instr.iinc =>
    match m.code[st.pc + 1]?, m.code[st.pc + 2]? with
    | some n, some c =>
      match st.locals[n]? with
      | some old => StepRes.cont { st with
          locals := st.locals.set n (wrap32 (old + toS8 c)), pc := st.pc + 3 }
      | none => StepRes.err Err.oob
    | _, _ => StepRes.err Err.oob
  | Instr.iloadN n =>
    match st.locals[n]? with
    | some v => orOob (push st v 1)
    | none => StepRes.err Err.oob
  | Instr.istoreN n =>
    match sGet st 1 with
    | some v =>
      if n < st.locals.length then
        StepRes.cont { st with locals := st.locals.set n v,
                               idx := st.idx - 1, pc := st.pc + 1 }
      else StepRes.err Err.oob
    | none => StepRes.err Err.oob
  | Instr.ldc =>
    match m.code[st.pc + 1]? with
    | some c =>
      if 1 ≤ c then
        match cls.pool[c - 1]? with
        | some (CpEntry.intc v) => orOob (push st v 2)
        | _ => StepRes.err Err.oob
      else StepRes.err Err.oob
    | none => StepRes.err Err.oob
  | Instr.ifCond c =>
    match sGet st 1 with
    | some v =>
      if cmpZero c v then
        match m.code[st.pc + 1]?, m.code[st.pc + 2]? with
        | some b1, some b2 => StepRes.cont { st with
            pc := branchTarget st.pc b1 b2,
            idx := st.idx - 1 }
        | _, _ => StepRes.err Err.oob
      else StepRes.cont { st with pc := st.pc + 3, idx := st.idx - 1 }
    | none => StepRes.err Err.oob
  | Instr.ifICmp c =>
    match sGet st 2, sGet st 1 with
    | some a, some bv =>
      if cmpTwo c a bv then
        match m.code[st.pc + 1]?, m.code[st.pc + 2]? with
        | some b1, some b2 => StepRes.cont { st with
            pc := branchTarget st.pc b1 b2,
            idx := st.idx - 2 }
        | _, _ => StepRes.err Err.oob
      else StepRes.cont { st with pc := st.pc + 3, idx := st.idx - 2 }
    | _, _ => StepRes.err Err.oob
  | Instr.goto =>
    match m.code[st.pc + 1]?, m.code[st.pc + 2]? with
    | some b1, some b2 => StepRes.cont { st with
        pc := branchTarget st.pc b1 b2 }
    | _, _ => StepRes.err Err.oob
  | Instr.ireturn =>
    match sGet st 1 with
    | some v => StepRes.done ⟨some v, st.locals, st.heap, st.out⟩
    | none => StepRes.err Err.oob
  | Instr.invokestatic =>
    match m.code[st.pc + 1]?, m.code[st.pc + 2]? with
    | some b1, some b2 =>
      match findMethodFromIndex cls (toS16 (imm16 b1 b2)) with
      | none => StepRes.err Err.oob
      | some callee =>
        match marshalLoop callee.nParams st.stack st.idx
            (List.replicate callee.maxLocals 0) with
        | none => StepRes.err Err.oob
        | some queue =>
          match exec callee (mkInit callee queue st.heap st.out) with
          | Except.error e => StepRes.err e
          | Except.ok d =>
            match d.retVal with
            | some v => orOob (push { st with idx := st.idx - callee.nParams,
                                              heap := d.heap, out := d.out } v 3)
            | none => StepRes.cont { st with idx := st.idx - callee.nParams,
                                             heap := d.heap, out := d.out,
                                             pc := st.pc + 3 }
    | _, _ => StepRes.err Err.oob
  | Instr.nop => StepRes.cont { st with pc := st.pc + 1 }
  | Instr.dup =>
    match sGet st 1 with
    | some v => orOob (push st v 1)
    | none => StepRes.err Err.oob
  | Instr.newarray =>
    match sGet st 1 with
    | some n =>
      if n < 0 then StepRes.err Err.assertFail
      else StepRes.cont { st with
          stack := st.stack.set (st.idx - 1) ((st.heap.length : Int)),
          heap := st.heap ++ [mkArr n], pc := st.pc + 2 }
    | none => StepRes.err Err.oob
  | Instr.arraylength =>
    match sGet st 1 with
    | some r =>
      match heapGet st.heap r with
      | some arr =>
        match arr[0]? with
        | some len => StepRes.cont { st with
            stack := st.stack.set (st.idx - 1) len, pc := st.pc + 1 }
        | none => StepRes.err Err.oob
      | none => StepRes.err Err.oob
    | none => StepRes.err Err.oob
  | Instr.areturn =>
    match sGet st 1 with
    | some v => StepRes.done ⟨some v, st.locals, st.heap, st.out⟩
    | none => StepRes.err Err.oob
  | Instr.iastore =>
    match sGet st 3, sGet st 2, sGet st 1 with
    | some r, some i, some v =>
      match heapGet st.heap r with
      | some arr =>
        if 0 ≤ i + 1 ∧ (i + 1).toNat < arr.length then
          StepRes.cont { st with
              heap := st.heap.set r.toNat (arr.set (i + 1).toNat v),
              idx := st.idx - 3, pc := st.pc + 1 }
        else StepRes.err Err.oob
      | none => StepRes.err Err.oob
    | _, _, _ => StepRes.err Err.oob
  | Instr.iaload =>
    match sGet st 2, sGet st 1 with
    | some r, some i =>
      match heapGet st.heap r with
      | some arr =>
        if 0 ≤ i + 1 then
          match arr[(i + 1).toNat]? with
          | some v => StepRes.cont { st with
              stack := st.stack.set (st.idx - 2) v,
              idx := st.idx - 1, pc := st.pc + 1 }
          | none => StepRes.err Err.oob
        else StepRes.err Err.oob
      | none => StepRes.err Err.oob
    | _, _ => StepRes.err Err.oob
  | Instr.aload =>
    match m.code[st.pc + 1]? with
    | some n =>
      match st.locals[n]? with
      | some v => orOob (push st v 2)
      | none => StepRes.err Err.oob
    | none => StepRes.err Err.oob
  | Instr.astore =>
    match m.code[st.pc + 1]?, sGet st 1 with
    | some n, some v =>
      if n < st.locals.length then
        StepRes.cont { st with locals := st.locals.set n v,
                               idx := st.idx - 1, pc := st.pc + 2 }
      else StepRes.err Err.oob
    | _, _ => StepRes.err Err.oob
  | Instr.aloadN n =>
    match st.locals[n]? with
    | some v => orOob (push st v 1)
    | none => StepRes.err Err.oob
  | Instr.astoreN n =>
    match sGet st 1 with
    | some v =>
      if n < st.locals.length then
        StepRes.cont { st with locals := st.locals.set n v,
                               idx := st.idx - 1, pc := st.pc + 1 }
      else StepRes.err Err.oob
    | none => StepRes.err Err.oob

/-- One iteration of the interpreter loop of `execute`: read the opcode
byte at `pc` and run the switch on it. -/
def stepInstrG (exec : Method → EState → Except Err Done) (cls : ClassImage)
    (m : Method) (st : EState) : StepRes :=
  match m.code[st.pc]? with
  | none => StepRes.err Err.oob
  | some b => runInstr exec cls m st (decode b)
/-- The interpreter loop `while (pc < code_length)` of `execute`, with an
explicit instruction budget.  Falling past the end of the code returns a
void result, exactly as the C function does after the loop. -/
def runLoop (cls : ClassImage) : Nat → Method → EState → Except Err Done
  | 0, _, _ => Except.error Err.fuel
  | fuel + 1, m, st =>
    if st.pc < m.code.length then
      match stepInstrG (fun mc stc => runLoop cls fuel mc stc) cls m st with
      | StepRes.cont st' => runLoop cls fuel m st'
      | StepRes.done d => Except.ok d
      | StepRes.err e => Except.error e
    else Except.ok ⟨none, st.locals, st.heap, st.out⟩

/-- One iteration of the loop as the interpreter itself performs it:
nested `invokestatic` calls run with the given budget. -/
def stepInstr (fuel : Nat) (cls : ClassImage) (m : Method) (st : EState) :
    StepRes :=
  stepInstrG (fun mc stc => runLoop cls fuel mc stc) cls m st

/-- The entry point `execute(method, locals, class, heap)` of `src/jvm.c`:
run the method from a fresh frame over the given locals and heap, with no
output produced yet. -/
def execute (fuel : Nat) (method : Method) (locals : List Int)
    (cls : ClassImage) (heap : List (List Int)) : Except Err Done :=
  runLoop cls fuel method (mkInit method locals heap [])

/-- Unfolding equation of the interpreter loop: one iteration checks
`pc < code_length`, performs one instruction, and loops. -/
theorem runLoop_succ (cls : ClassImage) (fuel : Nat) (m : Method)
    (st : EState) :
    runLoop cls (fuel + 1) m st =
      (if st.pc < m.code.length then
        match stepInstr fuel cls m st with
        | StepRes.cont st' => runLoop cls fuel m st'
        | StepRes.done d => Except.ok d
        | StepRes.err e => Except.error e
      else Except.ok ⟨none, st.locals, st.heap, st.out⟩) := rfl

theorem orOob_eq_cont {o : Option EState} {st' : EState}
    (h : orOob o = StepRes.cont st') : o = some st' := by
  cases o with
  | none => simp [orOob] at h
  | some a => simp [orOob] at h; simp [h]

theorem push_eq_some {st : EState} {v : Int} {d : Nat} {st' : EState}
    (h : push st v d = some st') :
    st.idx < st.stack.length ∧
      st' = { st with stack := st.stack.set st.idx v, idx := st.idx + 1,
                      pc := st.pc + d } := by
  unfold push at h
  split at h
  · exact ⟨by assumption, by injection h with h; exact h.symm⟩
  · exact absurd h (by simp)

theorem binop_eq_some {st : EState} {f : Int → Int → Int} {st' : EState}
    (h : binop st f = some st') :
    ∃ a b, sGet st 2 = some a ∧ sGet st 1 = some b ∧
      st' = { st with stack := st.stack.set (st.idx - 2) (f a b),
                      idx := st.idx - 1, pc := st.pc + 1 } := by
  unfold binop at h
  split at h
  next a b ha hb => exact ⟨a, b, ha, hb, by injection h with h; exact h.symm⟩
  next => exact absurd h (by simp)

/-- Any single instruction of the switch preserves the operand-stack
well-formedness: the live depth stays at most the allocated `max_stack`
and the allocation itself is never resized. -/
theorem runInstr_cont_inv {exec : Method → EState → Except Err Done}
    {cls : ClassImage} {m : Method} {st st' : EState} {i : Instr} {ms : Nat}
    (h1 : st.idx ≤ ms) (h2 : st.stack.length = ms)
    (h : runInstr exec cls m st i = StepRes.cont st') :
    st'.idx ≤ ms ∧ st'.stack.length = ms := by
  cases i <;>
    (simp only [runInstr] at h
     repeat' split at h
     all_goals try cases h
     all_goals
       first
       | exact ⟨by simp; omega, by simp [h2]⟩
       | (obtain ⟨hlt, hst⟩ := push_eq_some (orOob_eq_cont h)
          subst hst
          try simp at hlt
          exact ⟨by simp; omega, by simp [h2]⟩)
       | (obtain ⟨a, b, _, _, hst⟩ := binop_eq_some (orOob_eq_cont h)
          subst hst
          exact ⟨by simp; omega, by simp [h2]⟩))

/-- One successful loop iteration preserves the operand-stack
well-formedness. -/
theorem stepInstrG_cont_inv {exec : Method → EState → Except Err Done}
    {cls : ClassImage} {m : Method} {st st' : EState} {ms : Nat}
    (h1 : st.idx ≤ ms) (h2 : st.stack.length = ms)
    (h : stepInstrG exec cls m st = StepRes.cont st') :
    st'.idx ≤ ms ∧ st'.stack.length = ms := by
  unfold stepInstrG at h
  split at h
  · cases h
  · exact runInstr_cont_inv h1 h2 h

/-- The state of a frame at its `k`-th instruction boundary: iterate the
loop iteration of `runLoop` `k` times from `st`, threading the fuel exactly
as `runLoop` does, and return the state reached, or `none` if the frame
leaves the `Running` state (returns, faults, or exhausts the budget)
before the `k`-th boundary. -/
def stepsTo (cls : ClassImage) (m : Method) : Nat → EState → Nat → Option EState
  | _, st, 0 => some st
  | 0, _, _ + 1 => none
  | fuel + 1, st, k + 1 =>
    if st.pc < m.code.length then
      match stepInstr fuel cls m st with
      | StepRes.cont st' => stepsTo cls m fuel st' k
      | _ => none
    else none

theorem stepsTo_inv {cls : ClassImage} {m : Method} {fuel k : Nat}
    {st st' : EState}
    (h1 : st.idx ≤ m.maxStack) (h2 : st.stack.length = m.maxStack)
    (h : stepsTo cls m fuel st k = some st') :
    st'.idx ≤ m.maxStack ∧ st'.stack.length = m.maxStack := by
  induction fuel generalizing st k with
  | zero =>
    cases k with
    | zero => cases h; exact ⟨h1, h2⟩
    | succ k => simp [stepsTo] at h
  | succ fuel ih =>
    cases k with
    | zero => cases h; exact ⟨h1, h2⟩
    | succ k =>
      simp only [stepsTo] at h
      split at h
      · split at h
        next st'' hstep =>
          obtain ⟨h1', h2'⟩ := stepInstrG_cont_inv h1 h2 hstep
          exact ih h1' h2' h
        next => cases h
      · cases h

/-- Characterisation of the marshalling loop of `invokestatic`: a
successful run requires at least `p` live stack slots; queue slot `j`
(`j < p`) receives the stack entry at depth `idx - p + j`, so the deepest
popped value lands in slot 0 and the topmost in slot `p - 1`; every queue
slot at index `≥ p` is left untouched. -/
theorem marshalLoop_spec :
    ∀ (p : Nat) (stack : List Int) (idx : Nat) (q queue : List Int),
      marshalLoop p stack idx q = some queue →
      p ≤ idx ∧ queue.length = q.length ∧
        (∀ j, j < p → queue[j]? = stack[idx - p + j]?) ∧
        (∀ j, p ≤ j → queue[j]? = q[j]?) := by
  intro p
  induction p with
  | zero =>
    intro stack idx q queue h
    simp only [marshalLoop] at h
    cases h
    exact ⟨Nat.zero_le _, rfl, fun j hj => absurd hj (Nat.not_lt_zero j),
      fun j _ => rfl⟩
  | succ i ih =>
    intro stack idx q queue h
    simp only [marshalLoop] at h
    split at h
    next hc =>
      obtain ⟨hidx, hqlen⟩ := hc
      split at h
      next v hv =>
        obtain ⟨hle, hlen, hin, hout⟩ := ih stack (idx - 1) (q.set i v) queue h
        refine ⟨by omega, by simpa using hlen, ?_, ?_⟩
        · intro j hj
          rcases Nat.lt_or_ge j i with hji | hji
          · rw [hin j hji]
            have harith : idx - 1 - i + j = idx - (i + 1) + j := by omega
            rw [harith]
          · have hj_eq : j = i := by omega
            subst hj_eq
            rw [hout j (le_refl j), List.getElem?_set_eq_of_lt v hqlen]
            have harith : idx - (j + 1) + j = idx - 1 := by omega
            rw [harith, hv]
        · intro j hj
          rw [hout j (by omega)]
          exact List.getElem?_set_ne (by omega)
      next => cases h
    next => cases h

/-- C1: `invokestatic` pops `p = param_count(callee)` values off the
caller stack; the deepest of the `p` becomes callee `locals[0]` and the
topmost callee `locals[p-1]` (callee `locals[j] = v_j` for caller stack
`…, v_0, …, v_{p-1}` with `v_{p-1}` on top); callee locals beyond index
`p-1` start as zero; if the callee returns a value it is pushed onto the
caller stack, and the caller's pc advances by 3 in either case. -/
theorem c1_invokestatic_marshalling
    {fuel : Nat} {cls : ClassImage} {m : Method} {st : EState}
    {b b1 b2 : Nat} {callee : Method} {queue : List Int} {d : Done}
    (hb : m.code[st.pc]? = some b)
    (hdec : decode b = Instr.invokestatic)
    (h1 : m.code[st.pc + 1]? = some b1)
    (h2 : m.code[st.pc + 2]? = some b2)
    (hres : findMethodFromIndex cls (toS16 (imm16 b1 b2)) = some callee)
    (hq : marshalLoop callee.nParams st.stack st.idx
            (List.replicate callee.maxLocals 0) = some queue)
    (hrun : runLoop cls fuel callee (mkInit callee queue st.heap st.out) =
            Except.ok d) :
    callee.nParams ≤ st.idx ∧
    (∀ j, j < callee.nParams →
        queue[j]? = st.stack[st.idx - callee.nParams + j]?) ∧
    (∀ j, callee.nParams ≤ j → j < callee.maxLocals → queue[j]? = some 0) ∧
    (∀ v, d.retVal = some v →
        st.idx - callee.nParams < st.stack.length →
        stepInstr fuel cls m st = StepRes.cont
          { st with stack := st.stack.set (st.idx - callee.nParams) v,
                    idx := st.idx - callee.nParams + 1, pc := st.pc + 3,
                    heap := d.heap, out := d.out }) ∧
    (d.retVal = none →
        stepInstr fuel cls m st = StepRes.cont
          { st with idx := st.idx - callee.nParams, pc := st.pc + 3,
                    heap := d.heap, out := d.out }) := by
  obtain ⟨hle, hlen, hin, hout⟩ :=
    marshalLoop_spec callee.nParams st.stack st.idx
      (List.replicate callee.maxLocals 0) queue hq
  refine ⟨hle, hin, ?_, ?_, ?_⟩
  · intro j hj1 hj2
    rw [hout j hj1, List.getElem?_eq_getElem (by simpa using hj2)]
    simp
  · intro v hv hpush
    simp only [stepInstr, stepInstrG, hb, hdec, runInstr, h1, h2, hres, hq,
      hrun, hv, orOob, push]
    rw [if_pos (by simpa using hpush)]
  · intro hv
    simp only [stepInstr, stepInstrG, hb, hdec, runInstr, h1, h2, hres, hq,
      hrun, hv]

/-- C10: `execute` is a pure function of the method, the initial locals,
the class image and the heap: two runs from equal inputs produce the same
optional result, printed lines, final locals and final heap. -/
theorem c10_execute_deterministic (fuel : Nat) (method : Method)
    (locals : List Int) (cls : ClassImage) (heap : List (List Int))
    (r1 r2 : Except Err Done)
    (h1 : execute fuel method locals cls heap = r1)
    (h2 : execute fuel method locals cls heap = r2) : r1 = r2 :=
  h1.symm.trans h2

/-- C5: at every instruction boundary of every frame of a well-formed run
(`stepsTo` yields the boundary state only when every checked step up to it
succeeded) the operand-stack depth lies in `[0, max_stack]` of the
executing method.  Every frame starts from `mkInit` with depth 0 — the
`invokestatic` case of `runInstr` launches callee frames from `mkInit` as
well — and the depth is a natural number, so the lower bound 0 is
inherent. -/
theorem c5_stack_depth_bounded (cls : ClassImage) (m : Method)
    (locals : List Int) (heap : List (List Int)) (out : List Int)
    (fuel k : Nat) (st' : EState)
    (h : stepsTo cls m fuel (mkInit m locals heap out) k = some st') :
    st'.idx ≤ m.maxStack :=
  (stepsTo_inv (by simp [mkInit]) (by simp [mkInit]) h).1

/-- A class image with an empty constant pool and no methods, for concrete
programs that neither consult the pool nor call methods. -/
def clsEmpty : ClassImage := ⟨[], []⟩

/-- Scenario E1 of the spec: push 3, push 4, `iadd`, print, `return`. -/
def mainPrint7 : Method := ⟨[0x10, 3, 0x10, 4, 0x60, 0xb6, 0, 0, 0xb1], 2, 1, 0⟩

/-- The callee of scenario E5: `mul(a, b)` loads `locals[0]` and
`locals[1]`, multiplies, and returns; a third local slot exercises the
zero fill beyond the parameters. -/
def mulMethod : Method := ⟨[0x1a, 0x1b, 0x68, 0xac], 2, 3, 2⟩

/-- The `main` of scenario E5: push 6, push 7, `invokestatic #1`, print,
`return`. -/
def mainCallMul : Method :=
  ⟨[0x10, 6, 0x10, 7, 0xb8, 0, 1, 0xb6, 0, 0, 0xb1], 2, 1, 0⟩

/-- The class image of scenario E5: constant-pool entry 1 is a methodref
resolving to `mulMethod`. -/
def clsCallMul : ClassImage := ⟨[CpEntry.methodref 1], [mainCallMul, mulMethod]⟩

/-- Witness for C1 on scenario E5: calling `mul(6, 7)` from `main` at
pc 4 marshals 6 into callee slot 0 and 7 into slot 1, zero-fills slot 2,
pushes the returned 42 over the two popped arguments, and advances the
caller pc from 4 to 7. -/
theorem c1_witness :
    stepInstr 10 clsCallMul mainCallMul ⟨4, [6, 7], 2, [0], [], []⟩ =
      StepRes.cont ⟨7, [42, 7], 1, [0], [], []⟩ ∧
    ([6, 7, 0] : List Int)[0]? = some 6 ∧
    ([6, 7, 0] : List Int)[1]? = some 7 ∧
    ([6, 7, 0] : List Int)[2]? = some 0 := by
  have h := @c1_invokestatic_marshalling 10 clsCallMul mainCallMul
      ⟨4, [6, 7], 2, [0], [], []⟩ 0xb8 0 1 mulMethod [6, 7, 0]
      ⟨some 42, [6, 7, 0], [], []⟩ rfl rfl rfl rfl rfl rfl rfl
  exact ⟨h.2.2.2.1 42 rfl (by decide), h.2.1 0 (by decide),
    h.2.1 1 (by decide), h.2.2.1 2 (by decide) (by decide)⟩

/-- Witness for C5: two boundaries into scenario E1 the depth is 2, within
`max_stack = 2`. -/
theorem c5_witness :
    stepsTo clsEmpty mainPrint7 10 (mkInit mainPrint7 [0] [] []) 2 =
      some ⟨4, [3, 4], 2, [0], [], []⟩ ∧
    (⟨4, [3, 4], 2, [0], [], []⟩ : EState).idx ≤ mainPrint7.maxStack :=
  ⟨rfl, c5_stack_depth_bounded clsEmpty mainPrint7 [0] [] [] 10 2
    ⟨4, [3, 4], 2, [0], [], []⟩ rfl⟩

/-- Witness for C10 on scenario E1: two runs of the same inputs agree on
the result, the printed line 7, the final locals and the final heap. -/
theorem c10_witness :
    (Except.ok ⟨none, [0], [], [7]⟩ : Except Err Done) =
      Except.ok ⟨none, [0], [], [7]⟩ :=
  c10_execute_deterministic 20 mainPrint7 [0] clsEmpty [] _ _ rfl rfl

/-- The target pc the instruction at `st.pc` assigns when it is `goto` or
a conditional branch whose condition holds on the current operands:
`some t` exactly when this loop iteration of the C code executes
`pc += (int16_t)(bytecode[pc + 1] << 8 | bytecode[pc + 2])` and all the
reads it performs are in bounds. -/
def takenTarget (m : Method) (st : EState) : Option Nat :=
  match m.code[st.pc]? with
  | none => none
  | some b =>
    match decode b with
    | Instr.goto =>
      match m.code[st.pc + 1]?, m.code[st.pc + 2]? with
      | some b1, some b2 => some (branchTarget st.pc b1 b2)
      | _, _ => none
    | Instr.ifCond c =>
      match sGet st 1 with
      | some v =>
        if cmpZero c v then
          match m.code[st.pc + 1]?, m.code[st.pc + 2]? with
          | some b1, some b2 => some (branchTarget st.pc b1 b2)
          | _, _ => none
        else none
      | none => none
    | Instr.ifICmp c =>
      match sGet st 2, sGet st 1 with
      | some a, some bv =>
        if cmpTwo c a bv then
          match m.code[st.pc + 1]?, m.code[st.pc + 2]? with
          | some b1, some b2 => some (branchTarget st.pc b1 b2)
          | _, _ => none
        else none
      | _, _ => none
    | _ => none

/-- If one more iteration moves the pc at or past `code_length`, the loop
guard fails and the frame returns void with the state the iteration left
behind. -/
theorem runLoop_exit_after_step {cls : ClassImage} {fuel : Nat} {m : Method}
    {st st' : EState}
    (hpc : st.pc < m.code.length)
    (hstep : stepInstr (fuel + 1) cls m st = StepRes.cont st')
    (hge : m.code.length ≤ st'.pc) :
    runLoop cls (fuel + 2) m st =
      Except.ok ⟨none, st'.locals, st'.heap, st'.out⟩ := by
  rw [runLoop_succ, if_pos hpc, hstep]
  show runLoop cls (fuel + 1) m st' = _
  rw [runLoop_succ, if_neg (Nat.not_lt.mpr hge)]

/-- C2, amended: a `goto` or taken conditional branch whose computed
target pc lies outside `[0, code_length)` (a negative C target wraps
around `size_t`, so every out-of-range target satisfies
`code_length ≤ t`) does NOT abort the run: the loop guard
`pc < code_length` fails at the next iteration and the frame ends as a
normal void return, with the locals, heap and output it had at the
branch. -/
theorem c2_branch_out_of_range_returns_void
    {fuel : Nat} (cls : ClassImage) {m : Method} {st : EState} {t : Nat}
    (ht : takenTarget m st = some t)
    (hout : m.code.length ≤ t) :
    runLoop cls (fuel + 2) m st =
      Except.ok ⟨none, st.locals, st.heap, st.out⟩ := by
  unfold takenTarget at ht
  split at ht
  · cases ht
  next b hb =>
    have hpc : st.pc < m.code.length := by
      by_contra hcon
      rw [List.getElem?_eq_none (by omega)] at hb
      cases hb
    split at ht
    case h_1 hdec =>
      split at ht
      next b1 b2 h1 h2 =>
        cases ht
        have hstep : stepInstr (fuel + 1) cls m st =
            StepRes.cont { st with pc := branchTarget st.pc b1 b2 } := by
          simp only [stepInstr, stepInstrG, hb, hdec, runInstr, h1, h2]
        exact @runLoop_exit_after_step cls fuel m st
          { st with pc := branchTarget st.pc b1 b2 } hpc hstep hout
      next => cases ht
    case h_2 c hdec =>
      split at ht
      next v hv =>
        split at ht
        next hcond =>
          split at ht
          next b1 b2 h1 h2 =>
            cases ht
            have hstep : stepInstr (fuel + 1) cls m st = StepRes.cont
                { st with pc := branchTarget st.pc b1 b2,
                          idx := st.idx - 1 } := by
              simp only [stepInstr, stepInstrG, hb, hdec, runInstr, hv,
                if_pos hcond, h1, h2]
            exact @runLoop_exit_after_step cls fuel m st
              { st with pc := branchTarget st.pc b1 b2, idx := st.idx - 1 }
              hpc hstep hout
          next => cases ht
        next => cases ht
      next => cases ht
    case h_3 c hdec =>
      split at ht
      next a bv ha hv =>
        split at ht
        next hcond =>
          split at ht
          next b1 b2 h1 h2 =>
            cases ht
            have hstep : stepInstr (fuel + 1) cls m st = StepRes.cont
                { st with pc := branchTarget st.pc b1 b2,
                          idx := st.idx - 2 } := by
              simp only [stepInstr, stepInstrG, hb, hdec, runInstr, ha, hv,
                if_pos hcond, h1, h2]
            exact @runLoop_exit_after_step cls fuel m st
              { st with pc := branchTarget st.pc b1 b2, idx := st.idx - 2 }
              hpc hstep hout
          next => cases ht
        next => cases ht
      next => cases ht
    case h_4 => cases ht

/-- C3: every branch instruction sign-extends its 16-bit big-endian
immediate and, when taken, adds it in `size_t` arithmetic to the address
of the branching opcode itself (the pc before advancing) to form the new
pc — whenever that sum is representable the new pc equals `pc + off`
exactly; a not-taken branch advances pc by exactly 3; the one-operand
conditionals pop one value and the two-operand conditionals pop two, on
both paths. -/
theorem c3_branch_offsets
    {fuel : Nat} (cls : ClassImage) {m : Method} {st : EState}
    {b b1 b2 : Nat}
    (hb : m.code[st.pc]? = some b)
    (h1 : m.code[st.pc + 1]? = some b1)
    (h2 : m.code[st.pc + 2]? = some b2) :
    (decode b = Instr.goto →
      stepInstr fuel cls m st =
        StepRes.cont { st with pc := branchTarget st.pc b1 b2 }) ∧
    (∀ c v, decode b = Instr.ifCond c → sGet st 1 = some v →
      (cmpZero c v = true →
        stepInstr fuel cls m st = StepRes.cont
          { st with pc := branchTarget st.pc b1 b2, idx := st.idx - 1 }) ∧
      (cmpZero c v = false →
        stepInstr fuel cls m st = StepRes.cont
          { st with pc := st.pc + 3, idx := st.idx - 1 })) ∧
    (∀ c a v, decode b = Instr.ifICmp c → sGet st 2 = some a →
      sGet st 1 = some v →
      (cmpTwo c a v = true →
        stepInstr fuel cls m st = StepRes.cont
          { st with pc := branchTarget st.pc b1 b2, idx := st.idx - 2 }) ∧
      (cmpTwo c a v = false →
        stepInstr fuel cls m st = StepRes.cont
          { st with pc := st.pc + 3, idx := st.idx - 2 })) ∧
    branchTarget st.pc b1 b2 = wrap64 ((st.pc : Int) + toS16 (imm16 b1 b2)) ∧
    (0 ≤ (st.pc : Int) + toS16 (imm16 b1 b2) →
      (st.pc : Int) + toS16 (imm16 b1 b2) < 2 ^ 64 →
      ((branchTarget st.pc b1 b2 : Nat) : Int) =
        (st.pc : Int) + toS16 (imm16 b1 b2)) := by
  refine ⟨?_, ?_, ?_, branchTarget_def st.pc b1 b2, ?_⟩
  · intro hdec
    simp only [stepInstr, stepInstrG, hb, hdec, runInstr, h1, h2]
  · intro c v hdec hv
    constructor
    · intro hcond
      simp only [stepInstr, stepInstrG, hb, hdec, runInstr, hv,
        if_pos hcond, h1, h2]
    · intro hcond
      simp [stepInstr, stepInstrG, hb, hdec, runInstr, hv, hcond]
  · intro c a v hdec ha hv
    constructor
    · intro hcond
      simp only [stepInstr, stepInstrG, hb, hdec, runInstr, ha, hv,
        if_pos hcond, h1, h2]
    · intro hcond
      simp [stepInstr, stepInstrG, hb, hdec, runInstr, ha, hv, hcond]
  · intro hnn hlt
    simp only [branchTarget_def, wrap64]
    rw [Int.emod_eq_of_lt hnn hlt, Int.toNat_of_nonneg hnn]

/-- C4: `idiv` and `irem` with stack `…, a, b` (`b` on top) fail the
assert and abort when `b = 0`, producing no result; when `b ≠ 0` they pop
both operands and push the two's-complement truncated quotient
(respectively remainder). -/
theorem c4_idiv_irem
    {fuel : Nat} (cls : ClassImage) {m : Method} {st : EState}
    {b : Nat} {a bv : Int}
    (hb : m.code[st.pc]? = some b)
    (ha : sGet st 2 = some a) (hv : sGet st 1 = some bv) :
    (decode b = Instr.idiv → bv = 0 →
      stepInstr fuel cls m st = StepRes.err Err.assertFail) ∧
    (decode b = Instr.idiv → bv ≠ 0 →
      stepInstr fuel cls m st = StepRes.cont
        { st with stack := st.stack.set (st.idx - 2) (wrap32 (a.tdiv bv)),
                  idx := st.idx - 1, pc := st.pc + 1 }) ∧
    (decode b = Instr.irem → bv = 0 →
      stepInstr fuel cls m st = StepRes.err Err.assertFail) ∧
    (decode b = Instr.irem → bv ≠ 0 →
      stepInstr fuel cls m st = StepRes.cont
        { st with stack := st.stack.set (st.idx - 2) (wrap32 (a.tmod bv)),
                  idx := st.idx - 1, pc := st.pc + 1 }) := by
  refine ⟨?_, ?_, ?_, ?_⟩ <;> intro hdec hbv <;>
    simp [stepInstr, stepInstrG, hb, hdec, runInstr, hv, ha, hbv, binop,
      orOob]

/-- C7: the three shifts with stack `…, a, b` (`b` on top) fail the assert
and abort when `b < 0`; when `b ≥ 0` they pop both operands and push
`a << b` (wrapped), the arithmetic shift `a >> b` (floor division by
`2 ^ b`), and the logical shift of the unsigned image of `a`
re-interpreted as Signed32, respectively. -/
theorem c7_shifts
    {fuel : Nat} (cls : ClassImage) {m : Method} {st : EState}
    {b : Nat} {a bv : Int}
    (hb : m.code[st.pc]? = some b)
    (ha : sGet st 2 = some a) (hv : sGet st 1 = some bv) :
    (decode b = Instr.ishl → bv < 0 →
      stepInstr fuel cls m st = StepRes.err Err.assertFail) ∧
    (decode b = Instr.ishl → 0 ≤ bv →
      stepInstr fuel cls m st = StepRes.cont
        { st with
            stack := st.stack.set (st.idx - 2) (wrap32 (a * 2 ^ bv.toNat)),
            idx := st.idx - 1, pc := st.pc + 1 }) ∧
    (decode b = Instr.ishr → bv < 0 →
      stepInstr fuel cls m st = StepRes.err Err.assertFail) ∧
    (decode b = Instr.ishr → 0 ≤ bv →
      stepInstr fuel cls m st = StepRes.cont
        { st with
            stack := st.stack.set (st.idx - 2) (Int.fdiv a (2 ^ bv.toNat)),
            idx := st.idx - 1, pc := st.pc + 1 }) ∧
    (decode b = Instr.iushr → bv < 0 →
      stepInstr fuel cls m st = StepRes.err Err.assertFail) ∧
    (decode b = Instr.iushr → 0 ≤ bv →
      stepInstr fuel cls m st = StepRes.cont
        { st with
            stack := st.stack.set (st.idx - 2)
              (wrap32 ((u32 a >>> bv.toNat : Nat) : Int)),
            idx := st.idx - 1, pc := st.pc + 1 }) := by
  refine ⟨?_, ?_, ?_, ?_, ?_, ?_⟩ <;> intro hdec hbv <;>
    simp [stepInstr, stepInstrG, hb, hdec, runInstr, hv, ha, binop, orOob,
      if_pos, if_neg, hbv, Int.not_lt.mpr]
  all_goals simp [Int.not_lt.mpr hbv]

/-- C8: `bipush` pushes its operand byte sign-extended from 8 bits and
advances pc by 2; `sipush` pushes the big-endian pair `(b1 << 8 | b2)`
sign-extended from 16 bits and advances pc by 3; the extremes −128, 127,
−32768 and 32767 round-trip exactly through the encodings. -/
theorem c8_bipush_sipush
    {fuel : Nat} (cls : ClassImage) {m : Method} {st : EState} {b : Nat}
    (hb : m.code[st.pc]? = some b)
    (hroom : st.idx < st.stack.length) :
    (∀ c, decode b = Instr.bipush → m.code[st.pc + 1]? = some c →
      stepInstr fuel cls m st = StepRes.cont
        { st with stack := st.stack.set st.idx (toS8 c),
                  idx := st.idx + 1, pc := st.pc + 2 }) ∧
    (∀ b1 b2, decode b = Instr.sipush → m.code[st.pc + 1]? = some b1 →
      m.code[st.pc + 2]? = some b2 →
      stepInstr fuel cls m st = StepRes.cont
        { st with stack := st.stack.set st.idx (toS16 (imm16 b1 b2)),
                  idx := st.idx + 1, pc := st.pc + 3 }) ∧
    toS8 0x80 = -128 ∧ toS8 0x7f = 127 ∧ toS8 0xff = -1 ∧
    toS16 (imm16 0x80 0x00) = -32768 ∧ toS16 (imm16 0x7f 0xff) = 32767 := by
  refine ⟨?_, ?_, by decide, by decide, by decide, by decide, by decide⟩
  · intro c hdec hc
    simp [stepInstr, stepInstrG, hb, hdec, runInstr, hc, push, orOob, hroom]
  · intro b1 b2 hdec hc1 hc2
    simp [stepInstr, stepInstrG, hb, hdec, runInstr, hc1, hc2, push, orOob,
      hroom]

/-- C9: an opcode byte outside the implemented set hits the `default` case
of the switch: pc advances by exactly 1 and the stack, its depth, the
locals, the heap and the output are untouched — in particular the step
does not fault. -/
theorem c9_unknown_opcode_nop
    {fuel : Nat} (cls : ClassImage) {m : Method} {st : EState} {b : Nat}
    (hb : m.code[st.pc]? = some b)
    (hdec : decode b = Instr.unknown) :
    stepInstr fuel cls m st = StepRes.cont { st with pc := st.pc + 1 } := by
  simp only [stepInstr, stepInstrG, hb, hdec, runInstr]

/-- Setting the slot just past a list prefix replaces the appended
singleton. -/
theorem set_concat_length {α : Type} (l : List α) (a x : α) :
    (l ++ [a]).set l.length x = l ++ [x] := by
  induction l with
  | nil => rfl
  | cons y l ih => simp [List.set, ih]

/-- C6: `newarray` on `n ≥ 0` pushes a fresh reference `r` (the next heap
index) to a length-prefixed array; an immediately following `arraylength`
on `r` yields `n`; an `iaload` of any never-stored index `i ∈ [0, n)`
yields 0; an `iastore` of `(r, i, v)` updates exactly slot `i + 1` of the
backing array, and an `iaload` of `(r, i)` afterwards yields the stored
`v`. -/
theorem c6_array_roundtrip
    {fuel : Nat} (cls : ClassImage) {m : Method} {st : EState}
    {nb : Nat} {n : Int}
    (hb : m.code[st.pc]? = some nb)
    (hdec : decode nb = Instr.newarray)
    (hn : sGet st 1 = some n)
    (hnn : 0 ≤ n) :
    stepInstr fuel cls m st = StepRes.cont
      { st with stack := st.stack.set (st.idx - 1) ((st.heap.length : Int)),
                heap := st.heap ++ [mkArr n], pc := st.pc + 2 } ∧
    (∀ st2 ab, m.code[st2.pc]? = some ab → decode ab = Instr.arraylength →
      st2.heap = st.heap ++ [mkArr n] →
      sGet st2 1 = some ((st.heap.length : Int)) →
      stepInstr fuel cls m st2 = StepRes.cont
        { st2 with stack := st2.stack.set (st2.idx - 1) n,
                   pc := st2.pc + 1 }) ∧
    (∀ st2 lb i, m.code[st2.pc]? = some lb → decode lb = Instr.iaload →
      st2.heap = st.heap ++ [mkArr n] →
      sGet st2 2 = some ((st.heap.length : Int)) → sGet st2 1 = some i →
      0 ≤ i → i < n →
      stepInstr fuel cls m st2 = StepRes.cont
        { st2 with stack := st2.stack.set (st2.idx - 2) 0,
                   idx := st2.idx - 1, pc := st2.pc + 1 }) ∧
    (∀ st3 sb i v, m.code[st3.pc]? = some sb → decode sb = Instr.iastore →
      st3.heap = st.heap ++ [mkArr n] →
      sGet st3 3 = some ((st.heap.length : Int)) → sGet st3 2 = some i →
      sGet st3 1 = some v → 0 ≤ i → i < n →
      stepInstr fuel cls m st3 = StepRes.cont
        { st3 with heap := st.heap ++ [(mkArr n).set (i + 1).toNat v],
                   idx := st3.idx - 3, pc := st3.pc + 1 }) ∧
    (∀ st4 lb i v, m.code[st4.pc]? = some lb → decode lb = Instr.iaload →
      st4.heap = st.heap ++ [(mkArr n).set (i + 1).toNat v] →
      sGet st4 2 = some ((st.heap.length : Int)) → sGet st4 1 = some i →
      0 ≤ i → i < n →
      stepInstr fuel cls m st4 = StepRes.cont
        { st4 with stack := st4.stack.set (st4.idx - 2) v,
                   idx := st4.idx - 1, pc := st4.pc + 1 }) := by
  have hlen : (mkArr n).length = n.toNat + 1 := by simp [mkArr]
  refine ⟨?_, ?_, ?_, ?_, ?_⟩
  · simp [stepInstr, stepInstrG, hb, hdec, runInstr, hn,
      Int.not_lt.mpr hnn]
  · intro st2 ab hab hdec2 hheap hr
    have hres : heapGet st2.heap ((st.heap.length : Int)) = some (mkArr n) := by
      rw [hheap]
      simp [heapGet, List.getElem?_concat_length]
    have hzero : (mkArr n)[0]? = some n := by simp [mkArr]
    simp only [stepInstr, stepInstrG, hab, hdec2, runInstr, hr, hres, hzero]
  · intro st2 lb i hlb hdec2 hheap hr hi h0 hin
    have hres : heapGet st2.heap ((st.heap.length : Int)) = some (mkArr n) := by
      rw [hheap]
      simp [heapGet, List.getElem?_concat_length]
    have hget : (mkArr n)[(i + 1).toNat]? = some 0 := by
      have h1 : (i + 1).toNat = i.toNat + 1 := by omega
      have h2 : i.toNat < n.toNat := by omega
      simp [mkArr, h1, List.getElem?_replicate, h2]
    simp only [stepInstr, stepInstrG, hlb, hdec2, runInstr, hr, hi, hres,
      if_pos (by omega : (0:Int) ≤ i + 1), hget]
  · intro st3 sb i v hsb hdec2 hheap hr hi hv h0 hin
    have hres : heapGet st3.heap ((st.heap.length : Int)) = some (mkArr n) := by
      rw [hheap]
      simp [heapGet, List.getElem?_concat_length]
    have hcond : (0:Int) ≤ i + 1 ∧ (i + 1).toNat < (mkArr n).length := by
      rw [hlen]
      omega
    have hset : st3.heap.set ((st.heap.length : Int)).toNat
        ((mkArr n).set (i + 1).toNat v) =
        st.heap ++ [(mkArr n).set (i + 1).toNat v] := by
      rw [hheap]
      simpa using set_concat_length st.heap (mkArr n)
        ((mkArr n).set (i + 1).toNat v)
    simp only [stepInstr, stepInstrG, hsb, hdec2, runInstr, hr, hi, hv,
      hres, if_pos hcond, hset]
  · intro st4 lb i v hlb hdec2 hheap hr hi h0 hin
    have hres : heapGet st4.heap ((st.heap.length : Int)) =
        some ((mkArr n).set (i + 1).toNat v) := by
      rw [hheap]
      simp [heapGet, List.getElem?_concat_length]
    have hget : ((mkArr n).set (i + 1).toNat v)[(i + 1).toNat]? = some v := by
      refine List.getElem?_set_eq_of_lt v ?_
      rw [hlen]
      omega
    simp only [stepInstr, stepInstrG, hlb, hdec2, runInstr, hr, hi, hres,
      if_pos (by omega : (0:Int) ≤ i + 1), hget]

unseal branchTarget

/-- A method whose only instruction is `goto +5`, whose target pc 5 lies
past its 3-byte code array. -/
def gotoOut : Method := ⟨[0xa7, 0, 5], 0, 0, 0⟩

/-- Counterexample to C2 as stated: a `goto` whose target lies outside the
code array neither aborts nor faults — the run ends as a normal void
return with no output. -/
theorem c2_counterexample :
    execute 5 gotoOut [] clsEmpty [] = Except.ok ⟨none, [], [], []⟩ ∧
    execute 5 gotoOut [] clsEmpty [] ≠ Except.error Err.assertFail ∧
    execute 5 gotoOut [] clsEmpty [] ≠ Except.error Err.oob :=
  ⟨by decide, by decide, by decide⟩

/-- Witness for the amended C2: the `goto +5` of `gotoOut` is a taken
branch targeting pc 5 ≥ code length 3, and the frame returns void. -/
theorem c2_witness :
    takenTarget gotoOut ⟨0, [], 0, [], [], []⟩ = some 5 ∧
    runLoop clsEmpty 5 gotoOut ⟨0, [], 0, [], [], []⟩ =
      Except.ok ⟨none, [], [], []⟩ :=
  ⟨rfl, c2_branch_out_of_range_returns_void clsEmpty rfl (by decide)⟩

/-- A method with `if_icmple` at pc 14 encoding the big-endian immediate
`0xfff6 = −10`, so its taken target is pc 4. -/
def branchProg : Method :=
  ⟨[0, 0, 0, 0, 0, 0, 0, 0, 0, 0, 0, 0, 0, 0, 0xa4, 0xff, 0xf6], 2, 0, 0⟩

/-- Witness for C3 on `branchProg`: taken (5 ≤ 10) the pc moves from 14 to
14 − 10 = 4 and both operands are popped; not taken (11 ≰ 10) the pc
advances to 17 and both operands are still popped; the computed target
equals `pc + off` exactly. -/
theorem c3_witness :
    stepInstr 3 clsEmpty branchProg ⟨14, [5, 10], 2, [], [], []⟩ =
      StepRes.cont ⟨4, [5, 10], 0, [], [], []⟩ ∧
    stepInstr 3 clsEmpty branchProg ⟨14, [11, 10], 2, [], [], []⟩ =
      StepRes.cont ⟨17, [11, 10], 0, [], [], []⟩ ∧
    ((branchTarget 14 0xff 0xf6 : Nat) : Int) = 4 := by
  have h1 := @c3_branch_offsets 3 clsEmpty branchProg
    ⟨14, [5, 10], 2, [], [], []⟩ 0xa4 0xff 0xf6 rfl rfl rfl
  have h2 := @c3_branch_offsets 3 clsEmpty branchProg
    ⟨14, [11, 10], 2, [], [], []⟩ 0xa4 0xff 0xf6 rfl rfl rfl
  exact ⟨(h1.2.2.1 Cmp.le 5 10 rfl rfl rfl).1 (by decide),
    (h2.2.2.1 Cmp.le 11 10 rfl rfl rfl).2 (by decide),
    h1.2.2.2.2 (by decide) (by decide)⟩

/-- Scenario E3 of the spec: push 5, push 0, `idiv`. -/
def divProg : Method := ⟨[0x10, 5, 0x10, 0, 0x6c], 2, 1, 0⟩

/-- A remainder program: push 7, push 2, `irem`. -/
def remProg : Method := ⟨[0x10, 7, 0x10, 2, 0x70], 2, 1, 0⟩

/-- Witness for C4: `idiv` with divisor 0 faults; `7 idiv 2` pushes 3 and
`7 irem 2` pushes 1, popping both operands and advancing pc by 1. -/
theorem c4_witness :
    stepInstr 3 clsEmpty divProg ⟨4, [5, 0], 2, [0], [], []⟩ =
      StepRes.err Err.assertFail ∧
    stepInstr 3 clsEmpty divProg ⟨4, [7, 2], 2, [0], [], []⟩ =
      StepRes.cont ⟨5, [3, 2], 1, [0], [], []⟩ ∧
    stepInstr 3 clsEmpty remProg ⟨4, [7, 2], 2, [0], [], []⟩ =
      StepRes.cont ⟨5, [1, 2], 1, [0], [], []⟩ :=
  ⟨(@c4_idiv_irem 3 clsEmpty divProg ⟨4, [5, 0], 2, [0], [], []⟩ 0x6c 5 0
      rfl rfl rfl).1 rfl rfl,
    (@c4_idiv_irem 3 clsEmpty divProg ⟨4, [7, 2], 2, [0], [], []⟩ 0x6c 7 2
      rfl rfl rfl).2.1 rfl (by decide),
    (@c4_idiv_irem 3 clsEmpty remProg ⟨4, [7, 2], 2, [0], [], []⟩ 0x70 7 2
      rfl rfl rfl).2.2.2 rfl (by decide)⟩

/-- A method with `newarray` at pc 2, `arraylength` at pc 4, `iastore` at
pc 5 and `iaload` at pc 6. -/
def arrProg : Method := ⟨[0x10, 4, 0xbc, 10, 0xbe, 0x4f, 0x2e], 3, 0, 0⟩

/-- Witness for C6 on `arrProg`: `newarray 4` allocates `[4,0,0,0,0]` at
reference 0; `arraylength` on it yields 4; `iaload` at the never-stored
index 2 yields 0; `iastore` of 77 at index 2 updates slot 3 of the backing
array; `iaload` at index 2 afterwards yields 77. -/
theorem c6_witness :
    stepInstr 3 clsEmpty arrProg ⟨2, [4, 0, 0], 1, [], [], []⟩ =
      StepRes.cont ⟨4, [0, 0, 0], 1, [], [[4, 0, 0, 0, 0]], []⟩ ∧
    stepInstr 3 clsEmpty arrProg ⟨4, [0, 0, 0], 1, [], [[4, 0, 0, 0, 0]], []⟩ =
      StepRes.cont ⟨5, [4, 0, 0], 1, [], [[4, 0, 0, 0, 0]], []⟩ ∧
    stepInstr 3 clsEmpty arrProg ⟨6, [0, 2, 0], 2, [], [[4, 0, 0, 0, 0]], []⟩ =
      StepRes.cont ⟨7, [0, 2, 0], 1, [], [[4, 0, 0, 0, 0]], []⟩ ∧
    stepInstr 3 clsEmpty arrProg ⟨5, [0, 2, 77], 3, [], [[4, 0, 0, 0, 0]], []⟩ =
      StepRes.cont ⟨6, [0, 2, 77], 0, [], [[4, 0, 0, 77, 0]], []⟩ ∧
    stepInstr 3 clsEmpty arrProg ⟨6, [0, 2, 0], 2, [], [[4, 0, 0, 77, 0]], []⟩ =
      StepRes.cont ⟨7, [77, 2, 0], 1, [], [[4, 0, 0, 77, 0]], []⟩ := by
  have h := @c6_array_roundtrip 3 clsEmpty arrProg
    ⟨2, [4, 0, 0], 1, [], [], []⟩ 0xbc 4 rfl rfl rfl (by decide)
  exact ⟨h.1,
    h.2.1 ⟨4, [0, 0, 0], 1, [], [[4, 0, 0, 0, 0]], []⟩ 0xbe rfl rfl rfl rfl,
    h.2.2.1 ⟨6, [0, 2, 0], 2, [], [[4, 0, 0, 0, 0]], []⟩ 0x2e 2 rfl rfl rfl
      rfl rfl (by decide) (by decide),
    h.2.2.2.1 ⟨5, [0, 2, 77], 3, [], [[4, 0, 0, 0, 0]], []⟩ 0x4f 2 77 rfl rfl
      rfl rfl rfl rfl (by decide) (by decide),
    h.2.2.2.2 ⟨6, [0, 2, 0], 2, [], [[4, 0, 0, 77, 0]], []⟩ 0x2e 2 77 rfl rfl
      rfl rfl rfl (by decide) (by decide)⟩

/-- A method with `ishl` at pc 0, `ishr` at pc 1 and `iushr` at pc 2. -/
def shiftProg : Method := ⟨[0x78, 0x7a, 0x7c], 2, 0, 0⟩

/-- Witness for C7 on `shiftProg`: a negative shift amount faults;
`3 << 2 = 12`; arithmetic `−5 >> 1 = −3`; and logical `−2 >>> 1` yields
the large positive 2147483647. -/
theorem c7_witness :
    stepInstr 3 clsEmpty shiftProg ⟨0, [1, -1], 2, [], [], []⟩ =
      StepRes.err Err.assertFail ∧
    stepInstr 3 clsEmpty shiftProg ⟨0, [3, 2], 2, [], [], []⟩ =
      StepRes.cont ⟨1, [12, 2], 1, [], [], []⟩ ∧
    stepInstr 3 clsEmpty shiftProg ⟨1, [-5, 1], 2, [], [], []⟩ =
      StepRes.cont ⟨2, [-3, 1], 1, [], [], []⟩ ∧
    stepInstr 3 clsEmpty shiftProg ⟨2, [-2, 1], 2, [], [], []⟩ =
      StepRes.cont ⟨3, [2147483647, 1], 1, [], [], []⟩ := by
  refine ⟨?_, ?_, ?_, ?_⟩
  · exact (@c7_shifts 3 clsEmpty shiftProg ⟨0, [1, -1], 2, [], [], []⟩
      0x78 1 (-1) rfl (by decide) (by decide)).1 rfl (by decide)
  · exact ((@c7_shifts 3 clsEmpty shiftProg ⟨0, [3, 2], 2, [], [], []⟩
      0x78 3 2 rfl (by decide) (by decide)).2.1 rfl (by decide)).trans
      (by decide)
  · exact ((@c7_shifts 3 clsEmpty shiftProg ⟨1, [-5, 1], 2, [], [], []⟩
      0x7a (-5) 1 rfl (by decide) (by decide)).2.2.2.1 rfl
      (by decide)).trans (by decide)
  · exact ((@c7_shifts 3 clsEmpty shiftProg ⟨2, [-2, 1], 2, [], [], []⟩
      0x7c (-2) 1 rfl (by decide) (by decide)).2.2.2.2.2 rfl
      (by decide)).trans (by decide)

/-- A method with `bipush 0x80` at pc 0 and `sipush 0x7f 0xff` at pc 2. -/
def pushProg : Method := ⟨[0x10, 0x80, 0x11, 0x7f, 0xff], 1, 0, 0⟩

/-- Witness for C8 on `pushProg`: `bipush 0x80` pushes −128 and advances
pc by 2; `sipush 0x7f 0xff` pushes 32767 and advances pc by 3. -/
theorem c8_witness :
    stepInstr 3 clsEmpty pushProg ⟨0, [0], 0, [], [], []⟩ =
      StepRes.cont ⟨2, [-128], 1, [], [], []⟩ ∧
    stepInstr 3 clsEmpty pushProg ⟨2, [0], 0, [], [], []⟩ =
      StepRes.cont ⟨5, [32767], 1, [], [], []⟩ ∧
    toS8 0x80 = -128 ∧ toS16 (imm16 0x80 0x00) = -32768 := by
  refine ⟨?_, ?_, ?_, ?_⟩
  · exact ((@c8_bipush_sipush 3 clsEmpty pushProg ⟨0, [0], 0, [], [], []⟩
      0x10 rfl (by decide)).1 0x80 rfl rfl).trans (by decide)
  · exact ((@c8_bipush_sipush 3 clsEmpty pushProg ⟨2, [0], 0, [], [], []⟩
      0x11 rfl (by decide)).2.1 0x7f 0xff rfl rfl rfl).trans (by decide)
  · exact (@c8_bipush_sipush 3 clsEmpty pushProg ⟨0, [0], 0, [], [], []⟩
      0x10 rfl (by decide)).2.2.1
  · exact (@c8_bipush_sipush 3 clsEmpty pushProg ⟨0, [0], 0, [], [], []⟩
      0x10 rfl (by decide)).2.2.2.2.2.1

/-- A method whose only byte is 0x01 (`aconst_null`), which the
interpreter does not implement. -/
def unknownProg : Method := ⟨[0x01], 0, 0, 0⟩

/-- Witness for C9: the unimplemented byte 0x01 advances pc from 0 to 1
and leaves stack, depth, locals, heap and output untouched. -/
theorem c9_witness :
    stepInstr 1 clsEmpty unknownProg ⟨0, [], 0, [], [], []⟩ =
      StepRes.cont ⟨1, [], 0, [], [], []⟩ :=
  c9_unknown_opcode_nop clsEmpty rfl rfl

end TeenyJVM
